import Mathlib

/-!
Verification of the IRL booking-service request pipeline.

Shallow embedding of the validation and admission code:
- `lib/validators.js`: `sanitizeString`, `validatePhone`, `validateSFAddress`,
  `validateName`, `validateEmail`, `RateLimiter`.
- `api/mcp.js`: the HTTP dispatcher `handler` with its local `sanitizeString`,
  `validatePhone`, `validateSFAddress` and `checkRateLimit` (namespace `Api`).

Strings are modelled as `List Char` wrapped in `String`; machine numbers as
`Int`/`Nat`.  JavaScript values reaching the validators are modelled as
`JsVal`: either a string or a non-string collapsed to its truthiness, the
variant input type the spec prescribes for duck-typed inputs.
-/

namespace IRL

/-- A JavaScript value as seen by the validators: a string, or any non-string
value collapsed to its truthiness (`other true` for numbers/objects,
`other false` for `null`/`undefined`/`0`/`NaN`). -/
inductive JsVal where
  | str (s : String)
  | other (truthy : Bool)
deriving DecidableEq

/-- JavaScript truthiness of a `JsVal` (`""` is falsy, other strings truthy). -/
def JsVal.truthy : JsVal → Bool
  | .str s => !s.isEmpty
  | .other b => b

/-- Regex `\d`: the ASCII digits `0`-`9`. -/
def isDigitChar (c : Char) : Bool := '0' ≤ c && c ≤ '9'

/-- Regex `\w`: ASCII letters, digits and underscore. -/
def isWordChar (c : Char) : Bool :=
  ('a' ≤ c && c ≤ 'z') || ('A' ≤ c && c ≤ 'Z') || isDigitChar c || c = '_'

/-- ASCII letter, the class `[a-zA-Z]`. -/
def isAsciiLetter (c : Char) : Bool :=
  ('a' ≤ c && c ≤ 'z') || ('A' ≤ c && c ≤ 'Z')

/-- Regex `\s` / `String.prototype.trim` whitespace, restricted to the ASCII
range (tab, line feed, vertical tab, form feed, carriage return, space). -/
def isJsWhitespace (c : Char) : Bool :=
  c = ' ' || c = '\t' || c = '\n' || c = '\x0d' || c = '\x0b' || c = '\x0c'

/-- Model of `String.prototype.trim`: drop leading and trailing whitespace. -/
def jsTrim (l : List Char) : List Char :=
  ((l.dropWhile isJsWhitespace).reverse.dropWhile isJsWhitespace).reverse

/-- Does `hay` start with `pat` (exact characters)? -/
def litStartsWith : List Char → List Char → Bool
  | _, [] => true
  | [], _ :: _ => false
  | a :: as, b :: bs => a = b && litStartsWith as bs

/-- Does `hay` start with `pat`, comparing characters case-insensitively
(ASCII, as `toLowerCase` does on the characters that occur here)? -/
def ciStartsWith : List Char → List Char → Bool
  | _, [] => true
  | [], _ :: _ => false
  | a :: as, b :: bs => a.toLower = b.toLower && ciStartsWith as bs

/-- Model of `String.prototype.includes`: does `hay` contain `pat` as a substring? -/
def hasSubstring (hay pat : List Char) : Bool :=
  litStartsWith hay pat ||
    match hay with
    | [] => false
    | _ :: t => hasSubstring t pat

/-- Result record of the phone validators: `{valid, cleaned}`. -/
structure PhoneResult where
  valid : Bool
  cleaned : Option String
deriving DecidableEq

/-- The `DDD-DDD-DDDD` formatting of a ten-digit list:
`cleaned.slice(0,3)-cleaned.slice(3,6)-cleaned.slice(6)`. -/
def formatPhone (cleaned : List Char) : List Char :=
  cleaned.take 3 ++ '-' :: ((cleaned.drop 3).take 3 ++ '-' :: cleaned.drop 6)

/-- Embedding of `lib/validators.js` `validatePhone`: strip non-digits, drop a leading `1`
from an 11-digit number, require exactly 10 digits with a leading digit that is
neither `0` nor `1`, reject inputs whose trimmed form begins with `-`, and
format the accepted number as `DDD-DDD-DDDD`. -/
def validatePhone : JsVal → PhoneResult
  | .other _ => ⟨false, none⟩
  | .str phone =>
    let cleaned0 := phone.data.filter isDigitChar
    let cleaned :=
      if cleaned0.length = 11 ∧ cleaned0.head? = some '1' then cleaned0.tail
      else cleaned0
    if cleaned.length ≠ 10 then ⟨false, none⟩
    else if cleaned.head? = some '0' ∨ cleaned.head? = some '1' then ⟨false, none⟩
    else if (jsTrim phone.data).head? = some '-' then ⟨false, none⟩
    else ⟨true, some (String.mk (formatPhone cleaned))⟩

/-- Result record of the name validator: `{valid, reason?}`. -/
structure NameResult where
  valid : Bool
  reason : Option String
deriving DecidableEq

/-- Character class of the name regex `^[a-zA-Z\s\-']+$`. -/
def isNameChar (c : Char) : Bool :=
  isAsciiLetter c || isJsWhitespace c || c = '-' || c = '\''

/-- Embedding of `lib/validators.js` `validateName`: trim; length in [2, 100]; characters
restricted to letters, whitespace, hyphens, apostrophes; reject the SQL
fragments `--`, `/*`, `*/`, `;` and the case-insensitive substrings `drop`,
`delete`, `union`; require at least one letter. -/
def validateName : JsVal → NameResult
  | .other _ => ⟨false, some "Name must be a string"⟩
  | .str name =>
    let cleaned := jsTrim name.data
    if cleaned.length < 2 then ⟨false, some "Name too short"⟩
    else if cleaned.length > 100 then ⟨false, some "Name too long"⟩
    else if !(!cleaned.isEmpty && cleaned.all isNameChar) then
      ⟨false, some "Name contains invalid characters"⟩
    else if hasSubstring cleaned ['-', '-'] || hasSubstring cleaned ['/', '*'] ||
        hasSubstring cleaned ['*', '/'] || hasSubstring cleaned [';'] ||
        hasSubstring (cleaned.map Char.toLower) ['d', 'r', 'o', 'p'] ||
        hasSubstring (cleaned.map Char.toLower) ['d', 'e', 'l', 'e', 't', 'e'] ||
        hasSubstring (cleaned.map Char.toLower) ['u', 'n', 'i', 'o', 'n'] then
      ⟨false, some "Name contains invalid characters"⟩
    else if !cleaned.any isAsciiLetter then ⟨false, some "Name must contain letters"⟩
    else ⟨true, none⟩

/-- Number of characters of `hay` consumed up to and including the first
case-insensitive occurrence of `pat`; `none` if `pat` does not occur. -/
def dropLenThroughCi (pat : List Char) (hay : List Char) : Option Nat :=
  if ciStartsWith hay pat then some pat.length
  else
    match hay with
    | [] => none
    | _ :: t => (dropLenThroughCi pat t).map (· + 1)

/-- Number of characters of `hay` consumed up to and including the first
occurrence of the character `ch`; `none` if `ch` does not occur. -/
def dropLenThroughChar (ch : Char) : List Char → Option Nat
  | [] => none
  | c :: cs => if c = ch then some 1 else (dropLenThroughChar ch cs).map (· + 1)

/-- Length of the match of `/<tag\b[^<]*(?:(?!<\/tag>)<[^<]*)*<\/tag>/i` at the
head of `l`, for a tag name ending in a word character: `<tag` followed by a
word boundary, then everything through the first case-insensitive `</tag>`
(each loop step of the regex is forced, so the leftmost match runs to the
first closing tag); `none` if the pattern does not match here. -/
def blockMatchLen (tagName : List Char) (l : List Char) : Option Nat :=
  match l with
  | '<' :: rest =>
    if ciStartsWith rest tagName then
      let after := rest.drop tagName.length
      if (match after.head? with | none => true | some c => !isWordChar c) then
        (dropLenThroughCi ('<' :: '/' :: (tagName ++ ['>'])) after).map
          (fun m => 1 + tagName.length + m)
      else none
    else none
  | _ => none

/-- Global replacement by `""` of the block regex for `tagName` (the
`<script>...</script>` / `<style>...</style>` removal passes): scan left to
right, deleting each match and resuming after it.  The structural `fuel`
argument bounds the number of scanning steps; every step consumes at least one
character, so the wrapper's `l.length` fuel is never exhausted. -/
def stripBlocksFuel (tagName : List Char) : Nat → List Char → List Char
  | 0, l => l
  | _ + 1, [] => []
  | fuel + 1, c :: cs =>
    match blockMatchLen tagName (c :: cs) with
    | some k => stripBlocksFuel tagName fuel (cs.drop (k - 1))
    | none => c :: stripBlocksFuel tagName fuel cs

/-- The block-removal pass on a whole list. -/
def stripBlocks (tagName : List Char) (l : List Char) : List Char :=
  stripBlocksFuel tagName l.length l

/-- Global replacement by `""` of `/<[^>]*>/`: at each `<`, delete through the
first following `>` (the greedy `[^>]*` cannot cross a `>`); a `<` with no
later `>` stays.  Structural fuel as in `stripBlocksFuel`. -/
def stripTagsFuel : Nat → List Char → List Char
  | 0, l => l
  | _ + 1, [] => []
  | fuel + 1, '<' :: cs =>
    (match dropLenThroughChar '>' cs with
     | some k => stripTagsFuel fuel (cs.drop k)
     | none => '<' :: stripTagsFuel fuel cs)
  | fuel + 1, c :: cs => c :: stripTagsFuel fuel cs

/-- The tag-removal pass on a whole list. -/
def stripTags (l : List Char) : List Char :=
  stripTagsFuel l.length l

/-- The character class `[<>\"']` removed by the sanitizers. -/
def isSanitizerSpecial (c : Char) : Bool :=
  c = '<' || c = '>' || c = '"' || c = '\''

/-- Global replacement by `""` of `/[<>\"']/`. -/
def removeSpecials (l : List Char) : List Char :=
  l.filter (fun c => !isSanitizerSpecial c)

/-- The literal `javascript:` scheme. -/
def jsProtocol : List Char := ['j', 'a', 'v', 'a', 's', 'c', 'r', 'i', 'p', 't', ':']

/-- Global case-insensitive replacement by `""` of `/javascript:/`.
Structural fuel as in `stripBlocksFuel`. -/
def stripJavascriptFuel : Nat → List Char → List Char
  | 0, l => l
  | _ + 1, [] => []
  | fuel + 1, c :: cs =>
    if ciStartsWith (c :: cs) jsProtocol then stripJavascriptFuel fuel (cs.drop 10)
    else c :: stripJavascriptFuel fuel cs

/-- The `javascript:` removal pass on a whole list. -/
def stripJavascript (l : List Char) : List Char :=
  stripJavascriptFuel l.length l

/-- Length of the match of `/on\w+\s*=/i` at the head of `l` (`on`,
one or more word characters, optional whitespace, `=`; the character classes
are disjoint from `=`, so greedy matching is forced); `none` if no match. -/
def onHandlerLen (l : List Char) : Option Nat :=
  match l with
  | c1 :: c2 :: rest =>
    if c1.toLower = 'o' && c2.toLower = 'n' then
      let w := (rest.takeWhile isWordChar).length
      if w = 0 then none
      else
        let rest2 := rest.drop w
        let s := (rest2.takeWhile isJsWhitespace).length
        match (rest2.drop s).head? with
        | some '=' => some (2 + w + s + 1)
        | _ => none
    else none
  | _ => none

/-- Global case-insensitive replacement by `""` of `/on\w+\s*=/` (the inline
event-handler removal pass).  Structural fuel as in `stripBlocksFuel`. -/
def stripOnHandlersFuel : Nat → List Char → List Char
  | 0, l => l
  | _ + 1, [] => []
  | fuel + 1, c :: cs =>
    match onHandlerLen (c :: cs) with
    | some k => stripOnHandlersFuel fuel (cs.drop (k - 1))
    | none => c :: stripOnHandlersFuel fuel cs

/-- The event-handler removal pass on a whole list. -/
def stripOnHandlers (l : List Char) : List Char :=
  stripOnHandlersFuel l.length l

/-- Embedding of `lib/validators.js` `sanitizeString`: non-strings become `""`; strings go
through, in order, script-block removal, style-block removal, tag removal,
removal of `<`, `>`, `"`, `'`, removal of `javascript:`, removal of inline
event-handler patterns, trim, and truncation to `maxLength`. -/
def sanitizeString (v : JsVal) (maxLength : Nat) : String :=
  match v with
  | .other _ => ""
  | .str s =>
    String.mk
      ((jsTrim
        (stripOnHandlers
          (stripJavascript
            (removeSpecials
              (stripTags
                (stripBlocks ['s', 't', 'y', 'l', 'e']
                  (stripBlocks ['s', 'c', 'r', 'i', 'p', 't'] s.data))))))).take maxLength)

/-- The acceptance predicate of the name-validator claim, stated the way the
claim words it: the trimmed form has length in [2, 100], consists only of
letters, whitespace, hyphens and apostrophes, contains at least one letter,
contains none of the substrings `--`, `/*`, `*/`, `;`, and does not contain
the case-insensitive substrings `drop`, `delete`, `union`. -/
def nameClaimOk (s : String) : Bool :=
  let cleaned := jsTrim s.data
  2 ≤ cleaned.length && cleaned.length ≤ 100 &&
    cleaned.all isNameChar &&
    cleaned.any isAsciiLetter &&
    !hasSubstring cleaned ['-', '-'] && !hasSubstring cleaned ['/', '*'] &&
    !hasSubstring cleaned ['*', '/'] && !hasSubstring cleaned [';'] &&
    !hasSubstring (cleaned.map Char.toLower) ['d', 'r', 'o', 'p'] &&
    !hasSubstring (cleaned.map Char.toLower) ['d', 'e', 'l', 'e', 't', 'e'] &&
    !hasSubstring (cleaned.map Char.toLower) ['u', 'n', 'i', 'o', 'n']

/-- The digit string of the phone claim: all non-digits stripped; if exactly
11 digits remain and the leading digit is `1`, that digit is dropped. -/
def phoneClaimDigits (p : String) : List Char :=
  let d := p.data.filter isDigitChar
  if d.length = 11 ∧ d.head? = some '1' then d.tail else d

/-- The acceptance predicate of the phone-validator claim: exactly 10 digits
remain, the leading digit of the 10 is neither `0` nor `1`, and the trimmed
original input does not begin with `-`. -/
def phoneClaimOk (p : String) : Bool :=
  let d := phoneClaimDigits p
  d.length = 10 &&
    !(d.head? = some '0' || d.head? = some '1') &&
    !((jsTrim p.data).head? = some '-')

/-- A compiled regex token of the fixed-length patterns used by the address
classifier: a literal character, the wildcard `.` (any character except a line
terminator), or a character range such as `[0-8]` / `\d`. -/
inductive Tok where
  | lit (c : Char)
  | anyDot
  | range (lo hi : Char)
deriving DecidableEq

/-- Does one token match one character? -/
def tokMatches : Tok → Char → Bool
  | .lit a, c => c = a
  | .anyDot, c => !(c = '\n' || c = '\x0d')
  | .range lo hi, c => lo ≤ c && c ≤ hi

/-- Match a fixed-length token sequence at the head of `s`, returning the
remaining suffix. -/
def toksMatchAt : List Tok → List Char → Option (List Char)
  | [], rest => some rest
  | _ :: _, [] => none
  | t :: ts, c :: cs => if tokMatches t c then toksMatchAt ts cs else none

/-- Is there a `\b` word boundary between two adjacent positions (either may
be the edge of the string, `none`)? -/
def boundaryB (a b : Option Char) : Bool :=
  (match a with | none => false | some c => isWordChar c) !=
    (match b with | none => false | some c => isWordChar c)

/-- Does `\b toks \b` match at the head of `s`, with `prev` the character just
before `s` (`none` at the start of the string)? -/
def wbMatchHere (toks : List Tok) (prev : Option Char) (s : List Char) : Bool :=
  match toksMatchAt toks s with
  | none => false
  | some rest =>
    boundaryB prev s.head? && boundaryB (s.take toks.length).getLast? rest.head?

/-- Model of `RegExp.prototype.test` for `\b toks \b`: does the pattern match anywhere
in the string (scanning with the previous character tracked for `\b`)? -/
def wbTestFrom (toks : List Tok) : Option Char → List Char → Bool
  | prev, [] => wbMatchHere toks prev []
  | prev, c :: cs => wbMatchHere toks prev (c :: cs) || wbTestFrom toks (some c) cs

/-- The SF text indicators of `lib/validators.js`. -/
def sfIndicators : List (List Char) :=
  [['s', 'f'],
   ['s', 'a', 'n', ' ', 'f', 'r', 'a', 'n', 'c', 'i', 's', 'c', 'o'],
   ['s', 'a', 'n', 'f', 'r', 'a', 'n', 'c', 'i', 's', 'c', 'o'],
   ['s', '.', 'f', '.'],
   ['s', 'a', 'n', ' ', 'f', 'r', 'a', 'n']]

/-- Token compilation of an indicator, mirroring
`new RegExp("\\b" + indicator.replace('.', '\\.') + "\\b")`:
`String.prototype.replace` with a string pattern escapes only the FIRST dot,
so the first `.` of the indicator becomes a literal and every later `.`
remains the regex wildcard. -/
def indicatorToks (seenDot : Bool) : List Char → List Tok
  | [] => []
  | c :: cs =>
    if c = '.' then
      (if seenDot then Tok.anyDot else Tok.lit '.') :: indicatorToks true cs
    else Tok.lit c :: indicatorToks seenDot cs

/-- First branch of the zip regex `\b94(1[0-8]\d|0\d{2})\b`: `941[0-8]\d`. -/
def zipToksA : List Tok :=
  [.lit '9', .lit '4', .lit '1', .range '0' '8', .range '0' '9']

/-- Second branch of the zip regex `\b94(1[0-8]\d|0\d{2})\b`: `940\d\d`. -/
def zipToksB : List Tok :=
  [.lit '9', .lit '4', .lit '0', .range '0' '9', .range '0' '9']

/-- Embedding of `lib/validators.js` `validateSFAddress`: lowercase the address, test each
indicator's word-bounded regex, and OR with the word-bounded zip regex
`\b94(1[0-8]\d|0\d{2})\b` (the two alternatives of the group are tested
separately; both have fixed length five, so this is the same test). -/
def validateSFAddress : JsVal → Bool
  | .other _ => false
  | .str address =>
    let addr := address.data.map Char.toLower
    let hasSFText :=
      sfIndicators.any (fun ind => wbTestFrom (indicatorToks false ind) none addr)
    let hasSFZip := wbTestFrom zipToksA none addr || wbTestFrom zipToksB none addr
    hasSFText || hasSFZip

/-- Does the literal phrase `pat` occur in `s` (with `prev` the character just
before `s`) such that neither end of the occurrence is glued to a word
character of the surrounding text — the whole-word/whole-phrase reading of the
spec ("matched as whole words/phrases to avoid accidental substring matches
against unrelated words")? -/
def wholePhraseFrom (pat : List Char) : Option Char → List Char → Bool
  | _, [] => false
  | prev, c :: cs =>
    (litStartsWith (c :: cs) pat &&
      !((match prev with | none => false | some p => isWordChar p) &&
        (match pat.head? with | none => false | some q => isWordChar q)) &&
      !((match pat.getLast? with | none => false | some q => isWordChar q) &&
        (match ((c :: cs).drop pat.length).head? with
         | none => false
         | some n => isWordChar n))) ||
    wholePhraseFrom pat (some c) cs

/-- The region classifier as the spec and the claim describe it: the lowercased
address contains one of the fixed keyword indicators as a whole word/phrase, OR
matches the zip-code pattern (kept identical to the code's zip regex, so that
any divergence from `validateSFAddress` is in the keyword matching alone). -/
def specRegionClassification (address : String) : Bool :=
  let addr := address.data.map Char.toLower
  sfIndicators.any (fun ind => wholePhraseFrom ind none addr) ||
    (wbTestFrom zipToksA none addr || wbTestFrom zipToksB none addr)

/-- Splitting of a character list at every occurrence of `sep`
(`String.prototype.split` with a single-character separator). -/
def splitOnChar (sep : Char) : List Char → List (List Char)
  | [] => [[]]
  | c :: cs =>
    match splitOnChar sep cs with
    | [] => [[]]
    | h :: t => if c = sep then [] :: h :: t else (c :: h) :: t

/-- The class `[^\s@]` of the email regex. -/
def isEmailChar (c : Char) : Bool := !(isJsWhitespace c || c = '@')

/-- Decision procedure for `/^[^\s@]+@[^\s@]+\.[^\s@]+$/.test s`: the part
before the (necessarily first) `@` is nonempty and in the class, the part
after it is nonempty, in the class, and contains a `.` with at least one
character on each side. -/
def emailRegexMatch (s : List Char) : Bool :=
  let before := s.takeWhile (fun c => c ≠ '@')
  match s.dropWhile (fun c => c ≠ '@') with
  | '@' :: after =>
    !before.isEmpty && before.all isEmailChar &&
      !after.isEmpty && after.all isEmailChar &&
      ((after.drop 1).dropLast).contains '.'
  | _ => false

/-- Embedding of `lib/validators.js` `validateEmail`: the basic regex on the trimmed email,
then structural checks on `email.split('@')`: exactly two parts, local part at
most 64 characters, domain at most 255, domain neither starting nor ending in
`.` and containing no `..`. -/
def validateEmail : JsVal → Bool
  | .other _ => false
  | .str email =>
    let basicValid := emailRegexMatch (jsTrim email.data)
    if !basicValid then false
    else
      match splitOnChar '@' email.data with
      | [loc, domain] =>
        if 64 < loc.length then false
        else if 255 < domain.length then false
        else if (match domain.head? with | some '.' => true | _ => false) then false
        else if (match domain.getLast? with | some '.' => true | _ => false) then false
        else if hasSubstring domain ['.', '.'] then false
        else true
      | _ => false

/-- Embedding of `lib/validators.js` `RateLimiter`.  The `Map` of per-identifier timestamp
lists is modelled as a total function with missing keys reading as `[]`, which
is exactly how the code reads it (`this.requests.get(identifier) || []`);
timestamps (`Date.now()`) are integers. -/
structure RateLimiter where
  limit : Nat
  windowMs : Int
  requests : String → List Int

/-- A freshly constructed `new RateLimiter(limit, windowMs)`. -/
def RateLimiter.init (limit : Nat) (windowMs : Int) : RateLimiter :=
  ⟨limit, windowMs, fun _ => []⟩

/-- Embedding of `RateLimiter.cleanup`: prune every identifier's list to the timestamps
still inside the window.  (The code additionally deletes identifiers whose
pruned list is empty; under the missing-key-reads-as-`[]` convention that
deletion is observationally the identity, so it needs no separate step.) -/
def RateLimiter.cleanup (rl : RateLimiter) (now : Int) : RateLimiter :=
  { rl with
    requests := fun id => (rl.requests id).filter (fun time => now - time < rl.windowMs) }

/-- Embedding of `RateLimiter.checkLimit`: filter the identifier's timestamps to the current
window; if at least `limit` remain, deny without recording; otherwise record
`now` and admit.  `cleanupRoll` is the oracle for the `Math.random() < 0.01`
opportunistic cleanup performed on the admitting path. -/
def RateLimiter.checkLimit (rl : RateLimiter) (identifier : String) (now : Int)
    (cleanupRoll : Bool) : Bool × RateLimiter :=
  let userRequests := rl.requests identifier
  let recentRequests := userRequests.filter (fun time => now - time < rl.windowMs)
  if rl.limit ≤ recentRequests.length then (false, rl)
  else
    let rl' : RateLimiter :=
      { rl with
        requests := fun id =>
          if id = identifier then recentRequests ++ [now] else rl.requests id }
    (true, if cleanupRoll then rl'.cleanup now else rl')

/-- Embedding of `RateLimiter.reset`: clear the state of one identifier. -/
def RateLimiter.reset (rl : RateLimiter) (identifier : String) : RateLimiter :=
  { rl with requests := fun id => if id = identifier then [] else rl.requests id }

/-- Embedding of `RateLimiter.getRemaining`: `Math.max(0, limit - recentRequests.length)`. -/
def RateLimiter.getRemaining (rl : RateLimiter) (identifier : String) (now : Int) : Int :=
  max 0 ((rl.limit : Int) -
    ((rl.requests identifier).filter (fun time => now - time < rl.windowMs)).length)

/-- Run a sequence of `checkLimit` calls for one identifier; each call carries
its `Date.now()` value and its cleanup-roll oracle.  Returns the list of
results and the final state. -/
def runCalls (rl : RateLimiter) (identifier : String) :
    List (Int × Bool) → List Bool × RateLimiter
  | [] => ([], rl)
  | (t, roll) :: rest =>
    let r := rl.checkLimit identifier t roll
    let rest2 := runCalls r.2 identifier rest
    (r.1 :: rest2.1, rest2.2)

end IRL

namespace Api

open IRL

/-- Embedding of the `api/mcp.js` local `sanitizeString`: tag removal, removal of `<`, `>`,
`"`, `'`, trim, truncation — a shorter pipeline than the library sanitizer. -/
def sanitizeString (v : JsVal) (maxLength : Nat) : String :=
  match v with
  | .other _ => ""
  | .str s => String.mk ((jsTrim (removeSpecials (stripTags s.data))).take maxLength)

/-- Embedding of the `api/mcp.js` local `validatePhone`.  Unlike the library and `index.js`
versions it has no string guard: on a non-string it evaluates
`phone.replace(...)`, which raises a `TypeError`, modelled as `Except.error`.
Strings: strip non-digits, require exactly 10 digits (no country-code
handling, no leading-digit or minus checks), format `DDD-DDD-DDDD`. -/
def validatePhone : JsVal → Except Unit PhoneResult
  | .other _ => .error ()
  | .str phone =>
    let cleaned := phone.data.filter isDigitChar
    if cleaned.length ≠ 10 then .ok ⟨false, none⟩
    else .ok ⟨true, some (String.mk (formatPhone cleaned))⟩

/-- The zip pattern `/94[01]\d{2}/` of the `api/mcp.js` classifier. -/
def apiZipToks : List Tok :=
  [.lit '9', .lit '4', .range '0' '1', .range '0' '9', .range '0' '9']

/-- Bare scan of a fixed-length token pattern (no word boundaries): does it
match anywhere in `s`? -/
def scanMatch (toks : List Tok) : List Char → Bool
  | [] => (toksMatchAt toks []).isSome
  | c :: cs => (toksMatchAt toks (c :: cs)).isSome || scanMatch toks cs

/-- Embedding of the `api/mcp.js` local `validateSFAddress`: plain substring test of the three
indicators `sf`, `san francisco`, `sanfrancisco` on the lowercased address
(no word boundaries), OR the bare zip pattern `/94[01]\d{2}/`. -/
def validateSFAddress (address : String) : Bool :=
  let addr := address.data.map Char.toLower
  let hasSFText :=
    hasSubstring addr ['s', 'f'] ||
      hasSubstring addr ['s', 'a', 'n', ' ', 'f', 'r', 'a', 'n', 'c', 'i', 's', 'c', 'o'] ||
      hasSubstring addr ['s', 'a', 'n', 'f', 'r', 'a', 'n', 'c', 'i', 's', 'c', 'o']
  let hasSFZip := scanMatch apiZipToks addr
  hasSFText || hasSFZip

/-- Embedding of the `api/mcp.js` module-level rate limiting (`checkRateLimit` over the
`requestStore` map): limit 10 requests per 60000 ms window; on denial the
store is left untouched, on admission `now` is recorded. -/
def checkRateLimit (store : String → List Int) (ip : String) (now : Int) :
    Bool × (String → List Int) :=
  let recentRequests := (store ip).filter (fun time => now - time < 60000)
  if 10 ≤ recentRequests.length then (false, store)
  else (true, fun k => if k = ip then recentRequests ++ [now] else store k)

/-- Environment of the handler: whether `RESEND_API_KEY` is configured and
whether `resend.emails.send` reports an error. -/
structure Env where
  resendConfigured : Bool
  emailError : Bool
deriving DecidableEq

/-- The data interpolated into the notification email: the sanitized name, the
canonical phone, the sanitized address. -/
structure Email where
  name : String
  phone : String
  address : String
deriving DecidableEq

/-- Caller-facing outcome of the handler: an error status with its message, a
`content` text reply, or one of the two metadata replies. -/
inductive Outcome where
  | preflight
  | statusJson (code : Nat) (error : String)
  | contentMsg (text : String)
  | initMeta
  | toolsMeta
deriving DecidableEq

/-- The fixed polite decline message for out-of-region addresses. -/
def declineMsg : String :=
  "Sorry, we only serve San Francisco currently. We're expanding - stay tuned!"

/-- The `tools/call` body of the handler (the `try` block): missing-field
check, sanitization, name-length check, phone validation (whose `TypeError`
on non-strings is caught by the surrounding `catch`, producing the generic
500), region classification, Resend initialization, and the email send.
Returns the outcome and the email payload passed to the Notifier, if the send
was invoked. -/
def handleToolCall (env : Env) (nameV phoneV addressV : JsVal) :
    Outcome × Option Email :=
  if !(nameV.truthy && phoneV.truthy && addressV.truthy) then
    (.statusJson 400 "Missing required fields: name, phone, and address", none)
  else
    let cleanName := sanitizeString nameV 100
    let cleanAddress := sanitizeString addressV 200
    if cleanName.length < 2 then (.statusJson 400 "Invalid name provided", none)
    else
      match validatePhone phoneV with
      | .error _ =>
        (.statusJson 500 "Service temporarily unavailable. Please try again.", none)
      | .ok phoneValidation =>
        if !phoneValidation.valid then
          (.statusJson 400 "Invalid phone number. Please provide a 10-digit US phone number.",
            none)
        else if !validateSFAddress cleanAddress then (.contentMsg declineMsg, none)
        else if !env.resendConfigured then
          (.statusJson 500 "Email service temporarily unavailable", none)
        else
          let payload : Email :=
            ⟨cleanName, (phoneValidation.cleaned).getD "", cleanAddress⟩
          if env.emailError then
            (.statusJson 500 "Failed to send booking request. Please try again.", some payload)
          else
            (.contentMsg "Successfully booked the maid. Will get confirmation shortly.",
              some payload)

/-- An incoming HTTP request as the handler reads it. -/
structure Request where
  httpMethod : String
  ip : String
  bodyValid : Bool
  bodyLen : Nat
  mcpMethod : String
  toolName : Option String
  argName : JsVal
  argPhone : JsVal
  argAddress : JsVal

/-- Result of one handler invocation: the outcome, the rate-limit store after
the call, and the email payload if the Notifier was invoked. -/
structure Result where
  outcome : Outcome
  store : String → List Int
  email : Option Email

/-- Embedding of `api/mcp.js` `handler`: preflight, method check, rate limiting, body
checks, then dispatch on the MCP method; `tools/call` for the
`request_cleaning` tool runs `handleToolCall`. -/
def handler (env : Env) (store : String → List Int) (now : Int) (req : Request) :
    Result :=
  if req.httpMethod = "OPTIONS" then ⟨.preflight, store, none⟩
  else if req.httpMethod ≠ "POST" then
    ⟨.statusJson 405 "Method not allowed", store, none⟩
  else
    let rc := checkRateLimit store req.ip now
    if !rc.1 then
      ⟨.statusJson 429 "Too many requests. Please try again later.", rc.2, none⟩
    else if !req.bodyValid then ⟨.statusJson 400 "Invalid request body", rc.2, none⟩
    else if 10000 < req.bodyLen then ⟨.statusJson 413 "Request too large", rc.2, none⟩
    else if req.mcpMethod = "initialize" then ⟨.initMeta, rc.2, none⟩
    else if req.mcpMethod = "tools/list" then ⟨.toolsMeta, rc.2, none⟩
    else if req.mcpMethod = "tools/call" ∧ req.toolName = some "request_cleaning" then
      let r := handleToolCall env req.argName req.argPhone req.argAddress
      ⟨r.1, rc.2, r.2⟩
    else ⟨.statusJson 400 "Unknown method", rc.2, none⟩

end Api

namespace IRL

/-! Helper lemmas about the sanitizer passes. -/

theorem mem_of_stripJavascriptFuel :
    ∀ (fuel : Nat) (l : List Char), ∀ c ∈ stripJavascriptFuel fuel l, c ∈ l := by
  intro fuel
  induction fuel with
  | zero => intro l c hc; exact hc
  | succ n ih =>
    intro l c hc
    cases l with
    | nil => simp [stripJavascriptFuel] at hc
    | cons a as =>
      rw [stripJavascriptFuel] at hc
      split at hc
      · exact List.mem_cons_of_mem a (List.mem_of_mem_drop (ih _ c hc))
      · rcases List.mem_cons.mp hc with h | h
        · exact h ▸ List.mem_cons_self a as
        · exact List.mem_cons_of_mem a (ih _ c h)

theorem mem_of_stripJavascript : ∀ (l : List Char), ∀ c ∈ stripJavascript l, c ∈ l :=
  fun l => mem_of_stripJavascriptFuel l.length l

theorem mem_of_stripOnHandlersFuel :
    ∀ (fuel : Nat) (l : List Char), ∀ c ∈ stripOnHandlersFuel fuel l, c ∈ l := by
  intro fuel
  induction fuel with
  | zero => intro l c hc; exact hc
  | succ n ih =>
    intro l c hc
    cases l with
    | nil => simp [stripOnHandlersFuel] at hc
    | cons a as =>
      rw [stripOnHandlersFuel] at hc
      split at hc
      · exact List.mem_cons_of_mem a (List.mem_of_mem_drop (ih _ c hc))
      · rcases List.mem_cons.mp hc with h | h
        · exact h ▸ List.mem_cons_self a as
        · exact List.mem_cons_of_mem a (ih _ c h)

theorem mem_of_stripOnHandlers : ∀ (l : List Char), ∀ c ∈ stripOnHandlers l, c ∈ l :=
  fun l => mem_of_stripOnHandlersFuel l.length l

theorem mem_of_jsTrim (l : List Char) : ∀ c ∈ jsTrim l, c ∈ l := by
  intro c hc
  unfold jsTrim at hc
  rw [List.mem_reverse] at hc
  have h1 := (List.dropWhile_sublist isJsWhitespace).mem hc
  rw [List.mem_reverse] at h1
  exact (List.dropWhile_sublist isJsWhitespace).mem h1

/-- C3: for every input value and every maxLength, the library sanitizer
returns a string containing none of the characters `<`, `>`, `"`, `'`, of
length at most maxLength; every non-string input yields `""` without error. -/
theorem sanitizeString_output_safe :
    (∀ (v : JsVal) (m : Nat),
      (sanitizeString v m).data.any isSanitizerSpecial = false ∧
      (sanitizeString v m).length ≤ m) ∧
    (∀ (b : Bool) (m : Nat), sanitizeString (.other b) m = "") := by
  constructor
  · intro v m
    constructor
    · cases v with
      | other b => simp [sanitizeString]
      | str s =>
        rw [List.any_eq_false]
        intro c hc hspec
        simp only [sanitizeString] at hc
        have h1 := List.take_subset m _ hc
        have h2 := mem_of_jsTrim _ c h1
        have h3 := mem_of_stripOnHandlers _ c h2
        have h4 := mem_of_stripJavascript _ c h3
        rw [removeSpecials] at h4
        have h5 := List.of_mem_filter h4
        rw [hspec] at h5
        simp at h5
    · cases v with
      | other b => simp [sanitizeString]
      | str s => exact List.length_take_le m _
  · intro b m; rfl

/-- C4: validateName returns Valid exactly for the strings satisfying the
claim's predicate (trimmed length in [2, 100], characters restricted to
letters, whitespace, hyphens, apostrophes, at least one letter, none of the
SQL fragments, none of the case-insensitive substrings drop/delete/union);
in particular it rejects "", "J", a 101-character name and
"Robert; DROP TABLE", and accepts "O'Connor" and "Mary-Jane Smith". -/
theorem validateName_characterization :
    (∀ s : String, (validateName (.str s)).valid = nameClaimOk s) ∧
    (validateName (.str "")).valid = false ∧
    (validateName (.str "J")).valid = false ∧
    (validateName (.str (String.mk (List.replicate 101 'a')))).valid = false ∧
    (validateName (.str "Robert; DROP TABLE")).valid = false ∧
    (validateName (.str "O'Connor")).valid = true ∧
    (validateName (.str "Mary-Jane Smith")).valid = true := by
  refine ⟨?_, by decide, by decide, by decide, by decide, by decide, by decide⟩
  intro s
  simp only [validateName, nameClaimOk]
  set cleaned := jsTrim s.data with hcl
  by_cases h1 : cleaned.length < 2
  · have h2 : ¬ (2 ≤ cleaned.length) := by omega
    simp [h1, h2]
  · by_cases h2 : cleaned.length > 100
    · have h3 : ¬ (cleaned.length ≤ 100) := by omega
      simp [h1, h2, h3]
    · have hne : ¬ cleaned.isEmpty := by
        rcases cleaned with _ | ⟨a, t⟩
        · simp at h1
        · simp
      by_cases h3 : cleaned.all isNameChar
      · by_cases h4 : (hasSubstring cleaned ['-', '-'] || hasSubstring cleaned ['/', '*'] ||
            hasSubstring cleaned ['*', '/'] || hasSubstring cleaned [';'] ||
            hasSubstring (cleaned.map Char.toLower) ['d', 'r', 'o', 'p'] ||
            hasSubstring (cleaned.map Char.toLower) ['d', 'e', 'l', 'e', 't', 'e'] ||
            hasSubstring (cleaned.map Char.toLower) ['u', 'n', 'i', 'o', 'n']) = true
        · simp only [Bool.or_eq_true] at h4
          rcases h4 with ((((((f | f) | f) | f) | f) | f) | f) <;> simp_all <;>
            rw [if_neg (by omega : ¬ (cleaned.length < 2)),
              if_neg (by omega : ¬ (100 < cleaned.length))]
        · simp only [Bool.or_eq_true, not_or] at h4
          obtain ⟨⟨⟨⟨⟨⟨f1, f2⟩, f3⟩, f4⟩, f5⟩, f6⟩, f7⟩ := h4
          have g1 : ¬ (cleaned.length < 2) := by omega
          have g2 : ¬ (100 < cleaned.length) := by omega
          by_cases h5 : cleaned.any isAsciiLetter
          · simp [g1, g2, h1, h2, h3, hne, f1, f2, f3, f4, f5, f6, f7, h5]
            omega
          · simp [g1, g2, h1, h2, h3, hne, f1, f2, f3, f4, f5, f6, f7, h5]
      · simp [h1, h2, h3, hne]

/-! Helper lemmas about the phone validator. -/

theorem validatePhone_eq (p : String) :
    validatePhone (.str p) =
      if phoneClaimOk p then
        ⟨true, some (String.mk (formatPhone (phoneClaimDigits p)))⟩
      else ⟨false, none⟩ := by
  simp only [validatePhone, phoneClaimOk, phoneClaimDigits]
  set d0 := p.data.filter isDigitChar with hd0
  by_cases h11 : d0.length = 11 ∧ d0.head? = some '1'
  · simp only [if_pos h11]
    set d := d0.tail with hd
    by_cases h10 : d.length = 10
    · simp only [h10]
      by_cases hh : d.head? = some '0' ∨ d.head? = some '1'
      · rcases hh with hh | hh <;> simp [hh]
      · push_neg at hh
        obtain ⟨hh0, hh1⟩ := hh
        by_cases hm : (jsTrim p.data).head? = some '-'
        · simp [hh0, hh1, hm]
        · simp [hh0, hh1, hm]
    · simp [h10]
  · simp only [if_neg h11]
    by_cases h10 : d0.length = 10
    · simp only [h10]
      by_cases hh : d0.head? = some '0' ∨ d0.head? = some '1'
      · rcases hh with hh | hh <;> simp [hh]
      · push_neg at hh
        obtain ⟨hh0, hh1⟩ := hh
        rw [hd0, List.filter_head?] at hh0 hh1
        by_cases hm : (jsTrim p.data).head? = some '-'
        · simp [hh0, hh1, hm]
        · simp [hh0, hh1, hm]
    · simp [h10]

theorem digit_not_ws {c : Char} (h : isDigitChar c = true) : isJsWhitespace c = false := by
  by_contra hne
  rw [Bool.not_eq_false] at hne
  simp only [isJsWhitespace, Bool.or_eq_true, decide_eq_true_eq] at hne
  rcases hne with ((((h1 | h1) | h1) | h1) | h1) | h1 <;> subst h1 <;> exact absurd h (by decide)

theorem jsTrim_eq_self (l : List Char)
    (h1 : ∀ c, l.head? = some c → isJsWhitespace c = false)
    (h2 : ∀ c, l.getLast? = some c → isJsWhitespace c = false) : jsTrim l = l := by
  unfold jsTrim
  have e1 : l.dropWhile isJsWhitespace = l := by
    cases l with
    | nil => rfl
    | cons a t =>
      rw [List.dropWhile_cons]
      simp [h1 a rfl]
  rw [e1]
  have e2 : l.reverse.dropWhile isJsWhitespace = l.reverse := by
    cases hr : l.reverse with
    | nil => rfl
    | cons a t =>
      rw [List.dropWhile_cons]
      have hl : l.getLast? = some a := by
        rw [← List.head?_reverse, hr]
        rfl
      simp [h2 a hl]
  rw [e2, List.reverse_reverse]

theorem ten_elems : ∀ (d : List Char), d.length = 10 →
    ∃ a b c e f g h i j k, d = [a, b, c, e, f, g, h, i, j, k] := by
  intro d h
  rcases d with _ | ⟨a, d⟩; · simp at h
  rcases d with _ | ⟨b, d⟩; · simp at h
  rcases d with _ | ⟨c, d⟩; · simp at h
  rcases d with _ | ⟨e, d⟩; · simp at h
  rcases d with _ | ⟨f, d⟩; · simp at h
  rcases d with _ | ⟨g, d⟩; · simp at h
  rcases d with _ | ⟨h2, d⟩; · simp at h
  rcases d with _ | ⟨i, d⟩; · simp at h
  rcases d with _ | ⟨j, d⟩; · simp at h
  rcases d with _ | ⟨k, d⟩; · simp at h
  rcases d with _ | ⟨m, d⟩
  · exact ⟨a, b, c, e, f, g, h2, i, j, k, rfl⟩
  · simp at h

theorem validPhone_roundtrip (d : List Char) (hlen : d.length = 10)
    (hdig : ∀ c ∈ d, isDigitChar c = true)
    (h0 : d.head? ≠ some '0') (h1 : d.head? ≠ some '1') :
    phoneClaimOk (String.mk (formatPhone d)) = true ∧
    phoneClaimDigits (String.mk (formatPhone d)) = d := by
  obtain ⟨a, b, c, e, f, g, h2, i, j, k, rfl⟩ := ten_elems d hlen
  have da : isDigitChar a = true := hdig a (by simp)
  have db : isDigitChar b = true := hdig b (by simp)
  have dc : isDigitChar c = true := hdig c (by simp)
  have de : isDigitChar e = true := hdig e (by simp)
  have df : isDigitChar f = true := hdig f (by simp)
  have dg : isDigitChar g = true := hdig g (by simp)
  have dh : isDigitChar h2 = true := hdig h2 (by simp)
  have di : isDigitChar i = true := hdig i (by simp)
  have dj : isDigitChar j = true := hdig j (by simp)
  have dk : isDigitChar k = true := hdig k (by simp)
  have hfmt : formatPhone [a, b, c, e, f, g, h2, i, j, k] =
      [a, b, c, '-', e, f, g, '-', h2, i, j, k] := rfl
  have hdash : isDigitChar '-' = false := rfl
  have hfilter : (formatPhone [a, b, c, e, f, g, h2, i, j, k]).filter isDigitChar =
      [a, b, c, e, f, g, h2, i, j, k] := by
    rw [hfmt]
    simp [List.filter_cons, da, db, dc, de, df, dg, dh, di, dj, dk, hdash]
  have ha0 : a ≠ '0' := by intro hEq; exact h0 (by simp [hEq])
  have ha1 : a ≠ '1' := by intro hEq; exact h1 (by simp [hEq])
  have hadash : a ≠ '-' := by
    intro hEq; subst hEq; exact absurd da (by decide)
  have htrim : jsTrim (String.mk (formatPhone [a, b, c, e, f, g, h2, i, j, k])).data =
      [a, b, c, '-', e, f, g, '-', h2, i, j, k] := by
    show jsTrim (formatPhone [a, b, c, e, f, g, h2, i, j, k]) = _
    rw [hfmt]
    apply jsTrim_eq_self
    · intro x hx
      simp only [List.head?_cons, Option.some.injEq] at hx
      subst hx
      exact digit_not_ws da
    · intro x hx
      have hk : x = k := by
        have h5 : ([a, b, c, '-', e, f, g, '-', h2, i, j, k] : List Char).getLast? = some k := rfl
        rw [h5, Option.some.injEq] at hx
        exact hx.symm
      subst hk
      exact digit_not_ws dk
  have hdigits : phoneClaimDigits (String.mk (formatPhone [a, b, c, e, f, g, h2, i, j, k])) =
      [a, b, c, e, f, g, h2, i, j, k] := by
    unfold phoneClaimDigits
    show (if ((formatPhone [a, b, c, e, f, g, h2, i, j, k]).filter isDigitChar).length = 11 ∧ _
        then _ else _) = _
    rw [hfilter]
    simp
  refine ⟨?_, hdigits⟩
  unfold phoneClaimOk
  rw [show phoneClaimDigits (String.mk (formatPhone [a, b, c, e, f, g, h2, i, j, k])) =
      [a, b, c, e, f, g, h2, i, j, k] from hdigits]
  simp [htrim, ha0, ha1, hadash]

/-- C5: for every string input, validatePhone returns Valid with the canonical
DDD-DDD-DDDD form built from the ten digits precisely when, after stripping
non-digits and dropping the leading 1 of an 11-digit number, exactly 10 digits
remain, the leading digit is neither 0 nor 1, and the trimmed original input
does not begin with a minus; in every other case it returns
valid false, cleaned none. -/
theorem validatePhone_characterization (p : String) :
    validatePhone (.str p) =
      if phoneClaimOk p then
        ⟨true, some (String.mk (formatPhone (phoneClaimDigits p)))⟩
      else ⟨false, none⟩ :=
  validatePhone_eq p

/-- C8: validatePhone is a left-inverse on its own canonical output: whenever
it accepts an input with cleaned form c, validating c again yields the same
valid result with the same cleaned form; in particular validating
415-555-1234 yields valid with cleaned 415-555-1234. -/
theorem validatePhone_left_inverse : ∀ (p : JsVal) (c : String),
    validatePhone p = ⟨true, some c⟩ → validatePhone (.str c) = ⟨true, some c⟩ := by
  intro p c h
  cases p with
  | other b => exact absurd h (by simp [validatePhone])
  | str q =>
    rw [validatePhone_eq] at h
    by_cases hok : phoneClaimOk q = true
    · rw [if_pos hok] at h
      have hc : c = String.mk (formatPhone (phoneClaimDigits q)) := by
        have h2 := congrArg PhoneResult.cleaned h
        simp at h2
        exact h2.symm
      subst hc
      have hdig : ∀ x ∈ phoneClaimDigits q, isDigitChar x = true := by
        intro x hx
        unfold phoneClaimDigits at hx
        by_cases h11 : (q.data.filter isDigitChar).length = 11 ∧
            (q.data.filter isDigitChar).head? = some '1'
        · rw [if_pos h11] at hx
          exact List.of_mem_filter (List.mem_of_mem_tail hx)
        · rw [if_neg h11] at hx
          exact List.of_mem_filter hx
      unfold phoneClaimOk at hok
      simp only [Bool.and_eq_true, decide_eq_true_eq, Bool.not_eq_true',
        Bool.or_eq_false_iff, decide_eq_false_iff_not] at hok
      obtain ⟨⟨hL, h0, h1⟩, hm⟩ := hok
      obtain ⟨hokC, hdigs⟩ := validPhone_roundtrip (phoneClaimDigits q) hL hdig h0 h1
      rw [validatePhone_eq, if_pos hokC, hdigs]
    · rw [if_neg hok] at h
      exact absurd h (by simp)

/-- C8 witness: the theorem applied to the concrete input 4155551234. -/
theorem validatePhone_left_inverse_witness :
    validatePhone (.str "415-555-1234") = ⟨true, some "415-555-1234"⟩ :=
  validatePhone_left_inverse (.str "4155551234") "415-555-1234" (by decide)

/-! Helper lemma for the rate limiter: a run of calls that all fit inside the
window and under the limit is admitted in full and records every timestamp. -/

theorem runCalls_spec (identifier : String) :
    ∀ (calls : List (Int × Bool)) (rl : RateLimiter),
      0 < rl.windowMs →
      (rl.requests identifier).length + calls.length ≤ rl.limit →
      List.Pairwise (fun a b => a ≤ b ∧ b - a < rl.windowMs)
        (rl.requests identifier ++ calls.map Prod.fst) →
      (runCalls rl identifier calls).1 = List.replicate calls.length true ∧
      ((runCalls rl identifier calls).2).requests identifier =
        rl.requests identifier ++ calls.map Prod.fst ∧
      ((runCalls rl identifier calls).2).limit = rl.limit ∧
      ((runCalls rl identifier calls).2).windowMs = rl.windowMs := by
  intro calls
  induction calls with
  | nil =>
    intro rl hW hlen hpw
    simp [runCalls]
  | cons hd rest ih =>
    obtain ⟨t, roll⟩ := hd
    intro rl hW hlen hpw
    have hmap : (((t, roll) :: rest).map Prod.fst) = t :: rest.map Prod.fst := rfl
    rw [hmap] at hpw
    have hkeep : ∀ d ∈ rl.requests identifier, (t - d < rl.windowMs) := by
      intro d hd2
      have h3 := (List.pairwise_append.mp hpw).2.2 d hd2 t (by simp)
      exact h3.2
    have hfilter : (rl.requests identifier).filter (fun time => t - time < rl.windowMs) =
        rl.requests identifier := by
      apply List.filter_eq_self.mpr
      intro a ha
      simpa using hkeep a ha
    have hlt : (rl.requests identifier).length < rl.limit := by
      simp at hlen; omega
    have hnotle : ¬ (rl.limit ≤
        ((rl.requests identifier).filter (fun time => t - time < rl.windowMs)).length) := by
      rw [hfilter]; omega
    have h0W : t - t < rl.windowMs := by omega
    have hfst : (rl.checkLimit identifier t roll).1 = true := by
      simp only [RateLimiter.checkLimit]
      rw [if_neg hnotle]
    have hreq1 : ((rl.checkLimit identifier t roll).2).requests identifier =
        rl.requests identifier ++ [t] := by
      simp only [RateLimiter.checkLimit]
      rw [if_neg hnotle]
      cases roll with
      | false =>
        simp [hfilter]
      | true =>
        simp [RateLimiter.cleanup, hfilter, List.filter_append, List.filter_cons, h0W]
        exact hW
    have hlim1 : ((rl.checkLimit identifier t roll).2).limit = rl.limit := by
      simp only [RateLimiter.checkLimit]
      rw [if_neg hnotle]
      cases roll with
      | false => simp
      | true => simp [RateLimiter.cleanup]
    have hwm1 : ((rl.checkLimit identifier t roll).2).windowMs = rl.windowMs := by
      simp only [RateLimiter.checkLimit]
      rw [if_neg hnotle]
      cases roll with
      | false => simp
      | true => simp [RateLimiter.cleanup]
    have hpw1 : List.Pairwise
        (fun a b => a ≤ b ∧ b - a < ((rl.checkLimit identifier t roll).2).windowMs)
        (((rl.checkLimit identifier t roll).2).requests identifier ++ rest.map Prod.fst) := by
      rw [hwm1, hreq1, List.append_assoc]
      exact hpw
    have hlen1 : (((rl.checkLimit identifier t roll).2).requests identifier).length +
        rest.length ≤ ((rl.checkLimit identifier t roll).2).limit := by
      rw [hreq1, hlim1]
      simp at hlen ⊢
      omega
    have hW1 : 0 < ((rl.checkLimit identifier t roll).2).windowMs := by rw [hwm1]; exact hW
    obtain ⟨ihr, ihreq, ihlim, ihwm⟩ := ih ((rl.checkLimit identifier t roll).2) hW1 hlen1 hpw1
    have hrun : runCalls rl identifier ((t, roll) :: rest) =
        ((rl.checkLimit identifier t roll).1 ::
          (runCalls ((rl.checkLimit identifier t roll).2) identifier rest).1,
         (runCalls ((rl.checkLimit identifier t roll).2) identifier rest).2) := rfl
    rw [hrun]
    refine ⟨?_, ?_, ?_, ?_⟩
    · simp [hfst, ihr, List.replicate_succ]
    · simp only [ihreq, hreq1, hmap, List.append_assoc]
      rfl
    · rw [ihlim, hlim1]
    · rw [ihwm, hwm1]

/-- C2: from a fresh limiter, limit admitted calls at nondecreasing times all
within windowMs of the next call's time leave exactly those timestamps
recorded; the next call at that time is denied and records nothing; and once
the oldest recorded timestamp is at least windowMs older than the current
call's time, checkLimit admits again.  The cleanup-roll oracles are arbitrary. -/
theorem rateLimiter_window_behavior (L : Nat) (W : Int) (identifier : String)
    (calls : List (Int × Bool)) (now : Int) (t1 : Int) (ts : List Int)
    (hmap : calls.map Prod.fst = t1 :: ts)
    (hlen : calls.length = L)
    (hsorted : List.Pairwise (· ≤ ·) (calls.map Prod.fst))
    (hwin : ∀ t ∈ calls.map Prod.fst, t ≤ now ∧ now - t < W) :
    (runCalls (RateLimiter.init L W) identifier calls).1 = List.replicate L true ∧
    ((runCalls (RateLimiter.init L W) identifier calls).2).requests identifier = t1 :: ts ∧
    (∀ roll,
      (((runCalls (RateLimiter.init L W) identifier calls).2).checkLimit
        identifier now roll).1 = false ∧
      ((((runCalls (RateLimiter.init L W) identifier calls).2).checkLimit
        identifier now roll).2).requests identifier = t1 :: ts) ∧
    (∀ now2 roll2, W ≤ now2 - t1 →
      (((runCalls (RateLimiter.init L W) identifier calls).2).checkLimit
        identifier now2 roll2).1 = true) := by
  have ht1 : t1 ∈ calls.map Prod.fst := by rw [hmap]; simp
  have hW : 0 < W := by
    have h2 := hwin t1 ht1; omega
  have hpw : List.Pairwise (fun a b => a ≤ b ∧ b - a < W) (calls.map Prod.fst) := by
    refine List.Pairwise.imp_of_mem ?_ hsorted
    intro a b ha hb hab
    have hwa := hwin a ha
    have hwb := hwin b hb
    exact ⟨hab, by omega⟩
  have hinit : (RateLimiter.init L W).requests identifier = [] := rfl
  obtain ⟨hr, hreq, hlim, hwm⟩ := runCalls_spec identifier calls (RateLimiter.init L W)
    hW (by simp [RateLimiter.init, hlen]) (by simpa [hinit] using hpw)
  set rlF := (runCalls (RateLimiter.init L W) identifier calls).2 with hrlF
  have hreq' : rlF.requests identifier = t1 :: ts := by
    rw [hreq, hinit, hmap]; rfl
  have hlimF : rlF.limit = L := hlim
  have hwmF : rlF.windowMs = W := hwm
  have hlenT : (t1 :: ts).length = L := by rw [← hmap, List.length_map, hlen]
  have hall : ∀ t ∈ (t1 :: ts), now - t < W := by
    rw [← hmap]; intro t htm; exact (hwin t htm).2
  have hfilterF : (t1 :: ts).filter (fun time => now - time < W) = t1 :: ts := by
    apply List.filter_eq_self.mpr
    intro a ha; simpa using hall a ha
  refine ⟨by rw [hr, hlen], hreq', ?_, ?_⟩
  · intro roll
    have hle : rlF.limit ≤
        ((rlF.requests identifier).filter (fun time => now - time < rlF.windowMs)).length := by
      rw [hreq', hlimF, hwmF, hfilterF, hlenT]
    constructor
    · simp only [RateLimiter.checkLimit]
      rw [if_pos hle]
    · simp only [RateLimiter.checkLimit]
      rw [if_pos hle]
      exact hreq'
  · intro now2 roll2 hold
    have hdrop : ¬ (now2 - t1 < W) := by omega
    have hlt : ((rlF.requests identifier).filter
        (fun time => now2 - time < rlF.windowMs)).length < rlF.limit := by
      rw [hreq', hwmF, hlimF]
      have h1 : (t1 :: ts).filter (fun time => decide (now2 - time < W)) =
          ts.filter (fun time => decide (now2 - time < W)) := by
        rw [List.filter_cons]
        simp [hdrop]
      rw [h1]
      have h2 : (ts.filter (fun time => decide (now2 - time < W))).length ≤ ts.length :=
        List.length_filter_le _ _
      have h3 : (t1 :: ts).length = L := hlenT
      simp at h3
      omega
    simp only [RateLimiter.checkLimit]
    rw [if_neg (by omega : ¬ (rlF.limit ≤ ((rlF.requests identifier).filter
      (fun time => now2 - time < rlF.windowMs)).length))]

/-- C2 witness: a fresh limiter with limit 2 and window 10 admits calls at
times 0 and 1 (the second with the cleanup roll), denies at time 5, and admits
again at time 10. -/
theorem rateLimiter_window_behavior_witness :
    (runCalls (RateLimiter.init 2 10) "a" [(0, false), (1, true)]).1 = [true, true] ∧
    (((runCalls (RateLimiter.init 2 10) "a" [(0, false), (1, true)]).2).checkLimit
      "a" 5 false).1 = false ∧
    (((runCalls (RateLimiter.init 2 10) "a" [(0, false), (1, true)]).2).checkLimit
      "a" 10 true).1 = true := by
  obtain ⟨h1, h2, h3, h4⟩ := rateLimiter_window_behavior 2 10 "a" [(0, false), (1, true)]
    5 0 [1] rfl rfl (by decide) (by decide)
  exact ⟨by rw [h1]; rfl, (h3 false).1, h4 10 true (by decide)⟩

/-- C10 (amended): checkLimit admits exactly when getRemaining is positive at
the same instant, getRemaining is never negative, and — provided the window is
positive — an admitted call decreases getRemaining by exactly one. -/
theorem checkLimit_getRemaining_relation (rl : RateLimiter) (identifier : String)
    (now : Int) (roll : Bool) :
    ((rl.checkLimit identifier now roll).1 = true ↔ 0 < rl.getRemaining identifier now) ∧
    (0 ≤ rl.getRemaining identifier now) ∧
    (0 < rl.windowMs → (rl.checkLimit identifier now roll).1 = true →
      ((rl.checkLimit identifier now roll).2).getRemaining identifier now =
        rl.getRemaining identifier now - 1) := by
  set recent := (rl.requests identifier).filter (fun time => now - time < rl.windowMs)
    with hrec
  have hrem : rl.getRemaining identifier now = max 0 ((rl.limit : Int) - recent.length) := rfl
  by_cases hle : rl.limit ≤ recent.length
  · have hfst : (rl.checkLimit identifier now roll).1 = false := by
      simp only [RateLimiter.checkLimit]
      rw [if_pos hle]
    have hrem0 : rl.getRemaining identifier now = 0 := by
      rw [hrem]
      have h2 : (rl.limit : Int) - recent.length ≤ 0 := by
        have := hle
        omega
      omega
    refine ⟨?_, ?_, ?_⟩
    · rw [hfst, hrem0]
      constructor
      · intro h; exact absurd h (by simp)
      · intro h; omega
    · rw [hrem0]
    · intro hW hTrue
      rw [hfst] at hTrue
      exact absurd hTrue (by simp)
  · have hfst : (rl.checkLimit identifier now roll).1 = true := by
      simp only [RateLimiter.checkLimit]
      rw [if_neg hle]
    have hpos : 0 < rl.getRemaining identifier now := by
      rw [hrem]
      have h2 : 0 < (rl.limit : Int) - recent.length := by omega
      omega
    refine ⟨?_, ?_, ?_⟩
    · rw [hfst, hrem]
      simp only [true_iff]
      omega
    · rw [hrem]; omega
    · intro hW hTrue
      have hidem : recent.filter (fun time => now - time < rl.windowMs) = recent := by
        apply List.filter_eq_self.mpr
        intro a ha
        rw [hrec] at ha
        simpa using List.of_mem_filter ha
      have hnow : (decide (now - now < rl.windowMs)) = true := by
        simp; omega
      have hstate : ((rl.checkLimit identifier now roll).2).requests identifier =
          recent ++ [now] := by
        simp only [RateLimiter.checkLimit]
        rw [if_neg hle]
        cases roll with
        | false => simp
        | true =>
          simp [RateLimiter.cleanup, List.filter_append, hidem, List.filter_cons, hnow]
          exact hW
      have hwm2 : ((rl.checkLimit identifier now roll).2).windowMs = rl.windowMs := by
        simp only [RateLimiter.checkLimit]
        rw [if_neg hle]
        cases roll with
        | false => simp
        | true => simp [RateLimiter.cleanup]
      have hlim2 : ((rl.checkLimit identifier now roll).2).limit = rl.limit := by
        simp only [RateLimiter.checkLimit]
        rw [if_neg hle]
        cases roll with
        | false => simp
        | true => simp [RateLimiter.cleanup]
      unfold RateLimiter.getRemaining
      rw [hstate, hwm2, hlim2, List.filter_append, hidem]
      have hsing : ([now].filter (fun time => now - time < rl.windowMs)) = [now] := by
        simp
        omega
      rw [hsing, ← hrec]
      simp only [List.length_append, List.length_cons, List.length_nil]
      have h2 : 0 < (rl.limit : Int) - recent.length := by omega
      push_cast
      omega

/-- C10 witness: the amended theorem applied to a fresh limiter with limit 2
and window 5 at time 0. -/
theorem checkLimit_getRemaining_relation_witness :
    (((RateLimiter.init 2 5).checkLimit "a" 0 false).1 = true ↔
      0 < (RateLimiter.init 2 5).getRemaining "a" 0) ∧
    ((((RateLimiter.init 2 5).checkLimit "a" 0 false).2).getRemaining "a" 0 =
      (RateLimiter.init 2 5).getRemaining "a" 0 - 1) := by
  obtain ⟨h1, h2, h3⟩ := checkLimit_getRemaining_relation (RateLimiter.init 2 5) "a" 0 false
  exact ⟨h1, h3 (by decide) (by decide)⟩

/-- C10 counterexample: with windowMs 0 the admitted timestamp is immediately
outside the window, so an admitted call does not decrease getRemaining: a
fresh limiter with limit 1 and window 0 admits at time 0, getRemaining is 1
just before the call, and is still 1 afterwards. -/
theorem getRemaining_not_decremented_at_zero_window :
    ((RateLimiter.init 1 0).checkLimit "a" 0 false).1 = true ∧
    (RateLimiter.init 1 0).getRemaining "a" 0 = 1 ∧
    (((RateLimiter.init 1 0).checkLimit "a" 0 false).2).getRemaining "a" 0 = 1 := by
  refine ⟨by decide, by decide, by decide⟩

/-- C6: the region classifier gives the claim's three example answers, but it
does not match its keyword indicators as whole words/phrases: the code escapes
only the first dot of the indicator s.f. (String.prototype.replace with a
string pattern), so the second dot stays a regex wildcard that must sit on a
word boundary.  Hence the address 123 Main, S.F. — which contains the
indicator as a whole phrase, and which the repository's own edge-case test
expects to classify true — is classified false, while s.fa, which contains no
indicator at all, is classified true. -/
theorem validateSFAddress_wholephrase_divergence :
    validateSFAddress (.str "123 Market St, 94105") = true ∧
    validateSFAddress (.str "San Francisco") = true ∧
    validateSFAddress (.str "123 Broadway, Oakland, CA 94607") = false ∧
    validateSFAddress (.str "123 Main, S.F.") = false ∧
    specRegionClassification "123 Main, S.F." = true ∧
    validateSFAddress (.str "s.fa") = true ∧
    specRegionClassification "s.fa" = false := by
  refine ⟨by decide, by decide, by decide, by decide, by decide, by decide, by decide⟩

/-- C9: the five library validators are total on non-string input, returning
their defined empty/invalid results; but the HTTP dispatcher's own phone
validator, which is the one the pipeline runs, raises a TypeError on
non-string input (here: a request whose phone field is a JSON number), which
the handler's catch converts into the generic 500 response instead of the
defined invalid-phone result. -/
theorem validators_total_on_nonstrings :
    (∀ (b : Bool) (m : Nat), sanitizeString (.other b) m = "") ∧
    (∀ b : Bool, validatePhone (.other b) = ⟨false, none⟩) ∧
    (∀ b : Bool, validateName (.other b) = ⟨false, some "Name must be a string"⟩) ∧
    (∀ b : Bool, validateSFAddress (.other b) = false) ∧
    (∀ b : Bool, validateEmail (.other b) = false) ∧
    (Api.validatePhone (.other true) = .error ()) ∧
    ((Api.handler ⟨true, false⟩ (fun _ => []) 0
        ⟨"POST", "ip", true, 100, "tools/call", some "request_cleaning",
         .str "John Doe", .other true, .str "123 Market St, San Francisco, CA 94105"⟩).outcome
      = .statusJson 500 "Service temporarily unavailable. Please try again.") ∧
    ((Api.handler ⟨true, false⟩ (fun _ => []) 0
        ⟨"POST", "ip", true, 100, "tools/call", some "request_cleaning",
         .str "John Doe", .other true, .str "123 Market St, San Francisco, CA 94105"⟩).email
      = none) := by
  refine ⟨fun b m => rfl, fun b => rfl, fun b => rfl, fun b => rfl, fun b => rfl,
    rfl, by decide, by decide⟩

/-- C1 counterexample: the dispatcher invokes the Notifier for requests that
the FieldValidators-contract validators reject.  Three concrete requests reach
the email send although, respectively, the library validateName rejects the
name (digits), the library validatePhone rejects the phone (leading 0), and
the library region classifier rejects the sanitized address (the substring
sf only occurs inside Transfer). -/
theorem notifier_reached_despite_lib_validator_rejections :
    ((Api.handler ⟨true, false⟩ (fun _ => []) 0
        ⟨"POST", "ip", true, 100, "tools/call", some "request_cleaning",
         .str "John123 Doe", .str "4155551234",
         .str "123 Market St, San Francisco, CA 94105"⟩).email ≠ none) ∧
    (validateName (.str "John123 Doe")).valid = false ∧
    ((Api.handler ⟨true, false⟩ (fun _ => []) 0
        ⟨"POST", "ip", true, 100, "tools/call", some "request_cleaning",
         .str "John Doe", .str "0155551234",
         .str "123 Market St, San Francisco, CA 94105"⟩).email ≠ none) ∧
    (validatePhone (.str "0155551234")).valid = false ∧
    ((Api.handler ⟨true, false⟩ (fun _ => []) 0
        ⟨"POST", "ip", true, 100, "tools/call", some "request_cleaning",
         .str "John Doe", .str "4155551234",
         .str "456 Transfer Ave, Berkeley"⟩).email ≠ none) ∧
    validateSFAddress (.str (Api.sanitizeString (.str "456 Transfer Ave, Berkeley") 200))
      = false := by
  refine ⟨by decide, by decide, by decide, by decide, by decide, by decide⟩

end IRL

namespace Api

open IRL

/-- The `tools/call` body invokes the email send only past its own gates:
sanitized name of length at least 2, its own phone validation succeeding, and
its own region classification of the sanitized address. -/
theorem handleToolCall_email_gates (env : Env) (n p a : JsVal)
    (h : (handleToolCall env n p a).2 ≠ none) :
    2 ≤ (sanitizeString n 100).length ∧
    (∃ pv, validatePhone p = .ok pv ∧ pv.valid = true) ∧
    validateSFAddress (sanitizeString a 200) = true := by
  unfold handleToolCall at h
  by_cases hmiss : (!(n.truthy && p.truthy && a.truthy)) = true
  · rw [if_pos hmiss] at h; simp at h
  · rw [if_neg hmiss] at h
    by_cases hname : (sanitizeString n 100).length < 2
    · rw [if_pos hname] at h; simp at h
    · rw [if_neg hname] at h
      cases hp : validatePhone p with
      | error e => rw [hp] at h; simp at h
      | ok pv =>
        rw [hp] at h
        simp only at h
        by_cases hv : (!pv.valid) = true
        · rw [if_pos hv] at h; simp at h
        · rw [if_neg hv] at h
          by_cases hsf : (!validateSFAddress (sanitizeString a 200)) = true
          · rw [if_pos hsf] at h; simp at h
          · exact ⟨by omega, ⟨pv, rfl, by simpa using hv⟩, by simpa using hsf⟩

/-- C1 (amended): whenever the dispatcher invokes the Notifier, the rate
limiter admitted the request, the sanitized name passed the dispatcher's own
length check, the dispatcher's own phone validation returned valid, and the
dispatcher's own region classification of the sanitized address is true.
(The dispatcher applies its own checks, not the library FieldValidators —
see the counterexample theorem.) -/
theorem notifier_gated_by_handler_checks (env : Env) (store : String → List Int)
    (now : Int) (req : Request)
    (h : (handler env store now req).email ≠ none) :
    (checkRateLimit store req.ip now).1 = true ∧
    2 ≤ (sanitizeString req.argName 100).length ∧
    (∃ pv, validatePhone req.argPhone = .ok pv ∧ pv.valid = true) ∧
    validateSFAddress (sanitizeString req.argAddress 200) = true := by
  unfold handler at h
  by_cases hopt : req.httpMethod = "OPTIONS"
  · rw [if_pos hopt] at h; simp at h
  · rw [if_neg hopt] at h
    by_cases hpost : req.httpMethod ≠ "POST"
    · rw [if_pos hpost] at h; simp at h
    · rw [if_neg hpost] at h
      by_cases hrc : (!(checkRateLimit store req.ip now).1) = true
      · rw [if_pos hrc] at h; simp at h
      · rw [if_neg hrc] at h
        have hrate : (checkRateLimit store req.ip now).1 = true := by
          simpa using hrc
        by_cases hbody : (!req.bodyValid) = true
        · rw [if_pos hbody] at h; simp at h
        · rw [if_neg hbody] at h
          by_cases hsize : 10000 < req.bodyLen
          · rw [if_pos hsize] at h; simp at h
          · rw [if_neg hsize] at h
            by_cases hinitm : req.mcpMethod = "initialize"
            · rw [if_pos hinitm] at h; simp at h
            · rw [if_neg hinitm] at h
              by_cases hlist : req.mcpMethod = "tools/list"
              · rw [if_pos hlist] at h; simp at h
              · rw [if_neg hlist] at h
                by_cases hcall : req.mcpMethod = "tools/call" ∧
                    req.toolName = some "request_cleaning"
                · rw [if_pos hcall] at h
                  simp only at h
                  obtain ⟨h1, h2, h3⟩ := handleToolCall_email_gates env
                    req.argName req.argPhone req.argAddress h
                  exact ⟨hrate, h1, h2, h3⟩
                · rw [if_neg hcall] at h; simp at h

/-- C1 witness: the amended theorem applied to a request that does reach the
email send. -/
theorem notifier_gated_by_handler_checks_witness :
    (checkRateLimit (fun _ => []) "ip" 0).1 = true ∧
    2 ≤ (sanitizeString (.str "John Doe") 100).length ∧
    (∃ pv, validatePhone (.str "4155551234") = .ok pv ∧ pv.valid = true) ∧
    validateSFAddress
      (sanitizeString (.str "123 Market St, San Francisco, CA 94105") 200) = true :=
  notifier_gated_by_handler_checks ⟨true, false⟩ (fun _ => []) 0
    ⟨"POST", "ip", true, 100, "tools/call", some "request_cleaning",
     .str "John Doe", .str "4155551234", .str "123 Market St, San Francisco, CA 94105"⟩
    (by decide)

/-- C7: a request with all fields present that passes the rate limit and the
dispatcher's name and phone checks, whose sanitized address is classified
out-of-region, terminates with exactly the fixed polite decline message and
the Notifier is not invoked. -/
theorem outOfRegion_rejected_politely (env : Env) (store : String → List Int)
    (now : Int) (req : Request) (pv : PhoneResult)
    (hpost : req.httpMethod = "POST")
    (hbody : req.bodyValid = true)
    (hsize : req.bodyLen ≤ 10000)
    (hmeth : req.mcpMethod = "tools/call")
    (htool : req.toolName = some "request_cleaning")
    (hfields : (req.argName.truthy && req.argPhone.truthy && req.argAddress.truthy) = true)
    (hrate : (checkRateLimit store req.ip now).1 = true)
    (hname : 2 ≤ (sanitizeString req.argName 100).length)
    (hphone : validatePhone req.argPhone = .ok pv)
    (hvalid : pv.valid = true)
    (hsf : validateSFAddress (sanitizeString req.argAddress 200) = false) :
    (handler env store now req).outcome = .contentMsg declineMsg ∧
    (handler env store now req).email = none := by
  have hcore : handleToolCall env req.argName req.argPhone req.argAddress =
      (.contentMsg declineMsg, none) := by
    unfold handleToolCall
    rw [if_neg (show ¬ ((!(req.argName.truthy && req.argPhone.truthy &&
      req.argAddress.truthy)) = true) by simp [hfields])]
    rw [if_neg (show ¬ ((sanitizeString req.argName 100).length < 2) by omega)]
    rw [hphone]
    simp only
    rw [if_neg (show ¬ ((!pv.valid) = true) by simp [hvalid])]
    rw [if_pos (show (!validateSFAddress (sanitizeString req.argAddress 200)) = true
      by simp [hsf])]
  unfold handler
  rw [if_neg (show ¬ req.httpMethod = "OPTIONS" by simp [hpost])]
  rw [if_neg (show ¬ req.httpMethod ≠ "POST" by simp [hpost])]
  rw [if_neg (show ¬ ((!(checkRateLimit store req.ip now).1) = true) by simp [hrate])]
  rw [if_neg (show ¬ ((!req.bodyValid) = true) by simp [hbody])]
  rw [if_neg (show ¬ (10000 < req.bodyLen) by omega)]
  rw [if_neg (show ¬ req.mcpMethod = "initialize" by simp [hmeth])]
  rw [if_neg (show ¬ req.mcpMethod = "tools/list" by simp [hmeth])]
  rw [if_pos (show req.mcpMethod = "tools/call" ∧ req.toolName = some "request_cleaning"
    from ⟨hmeth, htool⟩)]
  rw [hcore]
  exact ⟨rfl, rfl⟩

/-- C7 witness: the theorem applied to the end-to-end Oakland request of the
spec, which reaches the decline message without invoking the Notifier. -/
theorem outOfRegion_rejected_politely_witness :
    (handler ⟨true, false⟩ (fun _ => []) 0
      ⟨"POST", "ip", true, 100, "tools/call", some "request_cleaning",
       .str "John Doe", .str "4155551234",
       .str "456 Broadway, Oakland, CA 94607"⟩).outcome = .contentMsg declineMsg ∧
    (handler ⟨true, false⟩ (fun _ => []) 0
      ⟨"POST", "ip", true, 100, "tools/call", some "request_cleaning",
       .str "John Doe", .str "4155551234",
       .str "456 Broadway, Oakland, CA 94607"⟩).email = none :=
  outOfRegion_rejected_politely ⟨true, false⟩ (fun _ => []) 0
    ⟨"POST", "ip", true, 100, "tools/call", some "request_cleaning",
     .str "John Doe", .str "4155551234", .str "456 Broadway, Oakland, CA 94607"⟩
    ⟨true, some "415-555-1234"⟩
    rfl rfl (by decide) rfl rfl (by decide) (by decide) (by decide) rfl rfl (by decide)

end Api
